import Mathlib

/-!
# Verification of `tscc_repair_step` (TSCC-Protocol, `src/tscc_core.py`)

Shallow embedding of the single update function of the repository.

Modelling decisions, recorded once here:

* Real floating-point arithmetic is modelled over `ℚ` (the spec demands the
  update identities exactly, and every claim is an exact arithmetic identity).
* The weight data `W` ("diagonal weight matrix", one scalar per 1-simplex) is
  modelled as the vector of its `E` diagonal entries, `Vec E := Fin E → ℚ`,
  which is how the spec's data model reads it; the Laplacian construction
  `B1.T @ W @ B1` of line 30 is therefore `B1ᵀ * diagonal W * B1`.
* Line 47, `W_new = W + eta * grad_W - gamma`, numpy-broadcasts the `(E, E)`
  diagonal matrix `W` against the length-`E` gradient row, so the object the
  real code returns is an `E × E` (generally non-diagonal) array.
  `tscc_repair_step_mat` models this broadcast faithfully;
  `tscc_repair_step` keeps the per-edge diagonal of that output — sound for
  the per-edge weight values (`tscc_mat_diag` proves the two agree on the
  diagonal) but deliberately not for the returned object's shape.
* `scipy.linalg.eigh` is an external LAPACK call; the model takes its output
  (`evals`, `evecs`) as oracle parameters, and the predicate `IsEigh`
  captures its contract (ascending eigenvalues, each column of `evecs` an
  eigenvector of the matrix, columns pairwise orthogonal and nonzero).
* numpy fancy indexing `grad_W[forbidden_edges] = 0` is modelled faithfully:
  an integer index `i` is valid iff `-E ≤ i < E`, a negative valid index `i`
  addresses position `E + i`, and any invalid index raises `IndexError`
  (modelled as `StepError.indexOutOfBounds`).
* `evals[1]` on a decomposition with fewer than two eigenpairs raises
  `IndexError`; the model surfaces this as
  `StepError.insufficientEigenpairs`, checked (as in the source) before the
  forbidden-index assignment.
-/

/-- Edge/weight vectors: one rational entry per index. -/
abbrev Vec (n : ℕ) := Fin n → ℚ

/-- Rational matrices. -/
abbrev Mat (m n : ℕ) := Matrix (Fin m) (Fin n) ℚ

/-- The failure conditions the source code can actually raise (both surface
as Python `IndexError`; the constructors name the two distinct raise sites). -/
inductive StepError : Type where
  | insufficientEigenpairs : StepError
  | indexOutOfBounds : StepError
deriving DecidableEq, Repr

instance {ε α : Type} [DecidableEq ε] [DecidableEq α] : DecidableEq (Except ε α) :=
  fun a b =>
    match a, b with
    | .ok x, .ok y =>
        if h : x = y then .isTrue (by rw [h]) else .isFalse (by simp [h])
    | .error x, .error y =>
        if h : x = y then .isTrue (by rw [h]) else .isFalse (by simp [h])
    | .ok _, .error _ => .isFalse (by simp)
    | .error _, .ok _ => .isFalse (by simp)

/-- `L1 = B1.T @ W @ B1` (line 30 of `tscc_core.py`): the weighted Hodge
1-Laplacian, with the weight data `W` entering as the diagonal matrix. -/
def hodgeL1 {E V : ℕ} (W : Vec E) (B1 : Mat E V) : Mat V V :=
  B1.transpose * Matrix.diagonal W * B1

/-- numpy index validity for an axis of length `E`: `-E ≤ i < E`. -/
def validIndex (E : ℕ) (i : ℤ) : Bool :=
  decide (-(E : ℤ) ≤ i) && decide (i < (E : ℤ))

/-- numpy index normalisation: a negative index `i` addresses `E + i`. -/
def npIndex (E : ℕ) (i : ℤ) : ℤ :=
  if i < 0 then i + (E : ℤ) else i

/-- The contract of `scipy.linalg.eigh` applied to `L` (up to column
normalisation, which the source never uses): eigenvalues ascending, column
`j` of `evecs` an eigenvector of `L` for `evals j`, columns pairwise
orthogonal and nonzero. -/
structure IsEigh {V : ℕ} (L : Mat V V) (evals : Fin V → ℚ) (evecs : Mat V V) : Prop where
  sorted : ∀ i j : Fin V, i ≤ j → evals i ≤ evals j
  eigen : ∀ j : Fin V, L.mulVec (fun r => evecs r j) = fun r => evals j * evecs r j
  orthogonal : ∀ i j : Fin V, i ≠ j → (∑ r, evecs r i * evecs r j) = 0
  nonzero : ∀ j : Fin V, ∃ r, evecs r j ≠ 0

/-- One step of Topological Spectral Coherence Control
(`tscc_repair_step`, lines 18-52 of `src/tscc_core.py`), with the output of
`la.eigh(L1)` supplied as the oracle parameters `evals`, `evecs`:

* `lambda_gap = evals[1]`, `v_gap = evecs[:, 1]` — raises `IndexError` when
  the decomposition has fewer than two eigenpairs (the guard `2 ≤ V`);
* `grad_W = (B1 @ v_gap)**2`;
* `grad_W[forbidden_edges] = 0` — numpy fancy indexing: raises `IndexError`
  on any index outside `[-E, E)`, negative indices address from the end;
* `W_new = W + eta * grad_W - gamma`;
* `W_new[W_new < 0] = 0`. -/
def tscc_repair_step {E V : ℕ} (W : Vec E) (B1 : Mat E V) (forbidden_edges : List ℤ)
    (eta gamma : ℚ) (evals : Fin V → ℚ) (evecs : Mat V V) :
    Except StepError (Vec E) :=
  if hV : 2 ≤ V then
    let v_gap : Fin V → ℚ := fun r => evecs r ⟨1, by omega⟩
    let grad_W : Vec E := fun e => (B1.mulVec v_gap e) ^ 2
    if forbidden_edges.all (validIndex E) then
      let grad_W' : Vec E := fun e =>
        if forbidden_edges.any (fun i => npIndex E i == ((e : ℕ) : ℤ)) then 0
        else grad_W e
      let W_new : Vec E := fun e => W e + eta * grad_W' e - gamma
      let W_new' : Vec E := fun e => if W_new e < 0 then 0 else W_new e
      Except.ok W_new'
    else Except.error StepError.indexOutOfBounds
  else Except.error StepError.insufficientEigenpairs

/-- The same step with line 47's numpy broadcast modelled faithfully: `W` is
the `(E, E)` diagonal weight matrix the docstring prescribes, and
`W_new = W + eta * grad_W - gamma` broadcasts the length-`E` gradient along
the rows, so the returned object is a full `E × E` array:
`W_new[i, j] = W[i, j] + eta * grad_W[j] - gamma`, clamped at 0 entrywise by
line 50. -/
def tscc_repair_step_mat {E V : ℕ} (W : Mat E E) (B1 : Mat E V)
    (forbidden_edges : List ℤ) (eta gamma : ℚ) (evals : Fin V → ℚ)
    (evecs : Mat V V) : Except StepError (Mat E E) :=
  if hV : 2 ≤ V then
    let v_gap : Fin V → ℚ := fun r => evecs r ⟨1, by omega⟩
    let grad_W : Vec E := fun e => (B1.mulVec v_gap e) ^ 2
    if forbidden_edges.all (validIndex E) then
      let grad_W' : Vec E := fun e =>
        if forbidden_edges.any (fun i => npIndex E i == ((e : ℕ) : ℤ)) then 0
        else grad_W e
      let W_new : Mat E E := Matrix.of fun i j => W i j + eta * grad_W' j - gamma
      let W_new' : Mat E E := Matrix.of fun i j => if W_new i j < 0 then 0 else W_new i j
      Except.ok W_new'
    else Except.error StepError.indexOutOfBounds
  else Except.error StepError.insufficientEigenpairs

section Examples

/-- The oriented incidence operator of the 4-cycle (rows = edges 01, 12, 23, 30;
columns = vertices), matching the spec's end-to-end example graph. -/
def cycleB1 : Mat 4 4 :=
  Matrix.of ![![-1, 1, 0, 0], ![0, -1, 1, 0], ![0, 0, -1, 1], ![1, 0, 0, -1]]

/-- Unit weights on the 4-cycle. -/
def cycleW : Vec 4 := fun _ => 1

/-- Eigenvalues of the 4-cycle Laplacian, ascending. -/
def cycleEvals : Fin 4 → ℚ := ![0, 2, 2, 4]

/-- Unnormalised eigenvector columns of the 4-cycle Laplacian, column `j`
paired with `cycleEvals j`. -/
def cycleEvecs : Mat 4 4 :=
  Matrix.of ![![1, 1, 0, 1], ![1, 0, 1, -1], ![1, -1, 0, 1], ![1, 0, -1, -1]]

end Examples

section Helpers

/-- Destructor for a successful step: a call returns `Except.ok` exactly when
both runtime checks pass, and then each output entry is the clamped update of
the masked squared spectral gradient. -/
theorem tscc_ok_elim {E V : ℕ} {W : Vec E} {B1 : Mat E V} {f : List ℤ}
    {eta gamma : ℚ} {evals : Fin V → ℚ} {evecs : Mat V V} {Wn : Vec E}
    (h : tscc_repair_step W B1 f eta gamma evals evecs = Except.ok Wn) :
    2 ≤ V ∧ f.all (validIndex E) = true ∧
      ∀ (h1 : 1 < V) (e : Fin E),
        Wn e =
          if W e + eta * (if f.any (fun i => npIndex E i == ((e : ℕ) : ℤ)) then 0
                else (B1.mulVec (fun r => evecs r ⟨1, h1⟩) e) ^ 2) - gamma < 0 then 0
          else W e + eta * (if f.any (fun i => npIndex E i == ((e : ℕ) : ℤ)) then 0
                else (B1.mulVec (fun r => evecs r ⟨1, h1⟩) e) ^ 2) - gamma := by
  unfold tscc_repair_step at h
  by_cases hV : 2 ≤ V
  · rw [dif_pos hV] at h
    by_cases hf : f.all (validIndex E) = true
    · simp only [if_pos hf, Except.ok.injEq] at h
      refine ⟨hV, hf, ?_⟩
      intro h1 e
      rw [← h]
    · simp only [if_neg hf] at h
      exact absurd h (by simp)
  · rw [dif_neg hV] at h
    exact absurd h (by simp)

/-- The clamp `if x < 0 then 0 else x` is `max 0 x`. -/
theorem clamp_eq_max (x : ℚ) : (if x < 0 then 0 else x) = max 0 x := by
  rcases lt_or_le x 0 with hx | hx
  · rw [if_pos hx, max_eq_left hx.le]
  · rw [if_neg (not_lt.mpr hx), max_eq_right hx]

/-- On the diagonal, the faithful broadcast model agrees with the per-edge
model: taking the diagonal of `tscc_repair_step_mat` on `diagonal W` gives
exactly `tscc_repair_step` on `W` (errors included). This is what makes the
per-edge model sound for every claim about individual weight values. -/
theorem tscc_mat_diag {E V : ℕ} (W : Vec E) (B1 : Mat E V) (f : List ℤ)
    (eta gamma : ℚ) (evals : Fin V → ℚ) (evecs : Mat V V) :
    (tscc_repair_step_mat (Matrix.diagonal W) B1 f eta gamma evals evecs).map
        (fun M => fun e => M e e)
      = tscc_repair_step W B1 f eta gamma evals evecs := by
  unfold tscc_repair_step_mat tscc_repair_step
  by_cases hV : 2 ≤ V
  · rw [dif_pos hV, dif_pos hV]
    by_cases hf : f.all (validIndex E) = true
    · simp only [if_pos hf, Except.map]
      refine congrArg Except.ok ?_
      funext e
      simp [Matrix.diagonal_apply_eq]
    · simp only [if_neg hf]
      rfl
  · rw [dif_neg hV, dif_neg hV]
    rfl

end Helpers

/-- **C3.** For all valid inputs (every entry of `W` finite and `≥ 0`), every
entry of the weight vector returned by `tscc_repair_step` is `≥ 0`: the
non-negativity invariant holds on input and output of every step. -/
theorem tscc_nonneg_C3 {E V : ℕ} {W : Vec E} {B1 : Mat E V} {f : List ℤ}
    {eta gamma : ℚ} {evals : Fin V → ℚ} {evecs : Mat V V} {Wn : Vec E}
    (hW : ∀ e, 0 ≤ W e)
    (h : tscc_repair_step W B1 f eta gamma evals evecs = Except.ok Wn) :
    ∀ e, 0 ≤ Wn e := by
  obtain ⟨hV, hf, hformula⟩ := tscc_ok_elim h
  intro e
  rw [hformula (by omega) e, clamp_eq_max]
  exact le_max_left 0 _

/-- The output of the spec's end-to-end example run (4-cycle, unit weights,
edge 0 forbidden, `eta = 1/20`, `gamma = 1/500`). -/
def cycleResult : Vec 4 := ![499/500, 131/125, 131/125, 131/125]

/-- The spec's end-to-end example run evaluates to `cycleResult`. -/
theorem cycleRun :
    tscc_repair_step cycleW cycleB1 [0] (1/20) (1/500) cycleEvals cycleEvecs
      = Except.ok cycleResult := by
  unfold tscc_repair_step
  rw [dif_pos (by norm_num)]
  rw [if_pos (by decide)]
  refine congrArg Except.ok ?_
  funext e
  fin_cases e <;>
    norm_num [cycleW, cycleB1, cycleEvals, cycleEvecs, cycleResult, Matrix.mulVec,
      Matrix.dotProduct, Fin.sum_univ_four, npIndex, List.any]

/-- Witness for C3 at the end-to-end example run: the input weights are
non-negative and so is (e.g.) entry 2 of the output. -/
theorem tscc_nonneg_C3_witness :
    (0 : ℚ) ≤ cycleW 0 ∧ (0 : ℚ) ≤ cycleResult 2 :=
  ⟨by norm_num [cycleW],
    tscc_nonneg_C3 (fun _ => by norm_num [cycleW]) cycleRun 2⟩

/-- **C1.** For every valid call and every index `i` in `forbidden_edges`,
the returned vector satisfies `W_new[i] = max 0 (W[i] - gamma)` exactly,
independent of `eta`: the spectral gradient contribution to a forbidden edge
is zeroed before the uniform cost subtraction and the clamp. -/
theorem tscc_masking_C1 {E V : ℕ} {W : Vec E} {B1 : Mat E V} {f : List ℤ}
    {eta gamma : ℚ} {evals : Fin V → ℚ} {evecs : Mat V V} {Wn : Vec E}
    (h : tscc_repair_step W B1 f eta gamma evals evecs = Except.ok Wn)
    (i : Fin E) (hi : ((i : ℕ) : ℤ) ∈ f) :
    Wn i = max 0 (W i - gamma) := by
  obtain ⟨hV, hf, hformula⟩ := tscc_ok_elim h
  have hmask : (f.any (fun j => npIndex E j == ((i : ℕ) : ℤ))) = true :=
    List.any_eq_true.mpr ⟨_, hi, by simp [npIndex]⟩
  rw [hformula (by omega) i]
  simp only [hmask, if_true, mul_zero, add_zero]
  rw [clamp_eq_max]

/-- Witness for C1: edge 0 of the end-to-end example run is forbidden and its
output entry equals `max 0 (1 - 1/500)`. -/
theorem tscc_masking_C1_witness :
    ((((0 : Fin 4) : ℕ) : ℤ) ∈ [(0 : ℤ)]) ∧ cycleResult 0 = max 0 (cycleW 0 - 1/500) :=
  ⟨by decide, tscc_masking_C1 cycleRun 0 (by decide)⟩

/-- **C6.** When `eta = 0`, every output entry (masked or not) equals
`max 0 (W[e] - gamma)`: the gradient term vanishes and the step reduces to a
uniform subtraction of `gamma` followed by clamping at 0. -/
theorem tscc_zero_eta_C6 {E V : ℕ} {W : Vec E} {B1 : Mat E V} {f : List ℤ}
    {gamma : ℚ} {evals : Fin V → ℚ} {evecs : Mat V V} {Wn : Vec E}
    (h : tscc_repair_step W B1 f 0 gamma evals evecs = Except.ok Wn)
    (e : Fin E) :
    Wn e = max 0 (W e - gamma) := by
  obtain ⟨hV, hf, hformula⟩ := tscc_ok_elim h
  rw [hformula (by omega) e, zero_mul, add_zero, clamp_eq_max]

/-- The example run with `eta = 0`: every edge decays to `1 - 1/500`. -/
theorem decayRun :
    tscc_repair_step cycleW cycleB1 [0] 0 (1/500) cycleEvals cycleEvecs
      = Except.ok (fun _ => 499/500) := by
  unfold tscc_repair_step
  rw [dif_pos (by norm_num)]
  rw [if_pos (by decide)]
  refine congrArg Except.ok ?_
  funext e
  fin_cases e <;>
    norm_num [cycleW, cycleB1, cycleEvals, cycleEvecs, Matrix.mulVec,
      Matrix.dotProduct, Fin.sum_univ_four, npIndex, List.any]

/-- Witness for C6: the zero-learning-rate run on the 4-cycle, checked at the
unmasked edge 1. -/
theorem tscc_zero_eta_C6_witness :
    ((fun _ => 499/500 : Vec 4) 1) = max 0 (cycleW 1 - 1/500) :=
  tscc_zero_eta_C6 decayRun 1

/-- **C10.** For every valid call with `eta ≥ 0` and every edge `e` (masked
or not), `W_new[e] ≥ max 0 (W[e] - gamma)`: the squared spectral gradient is
non-negative, so the uniform `gamma` subtraction is the only mechanism by
which a weight can decrease in one step. -/
theorem tscc_lower_bound_C10 {E V : ℕ} {W : Vec E} {B1 : Mat E V} {f : List ℤ}
    {eta gamma : ℚ} {evals : Fin V → ℚ} {evecs : Mat V V} {Wn : Vec E}
    (heta : 0 ≤ eta)
    (h : tscc_repair_step W B1 f eta gamma evals evecs = Except.ok Wn)
    (e : Fin E) :
    max 0 (W e - gamma) ≤ Wn e := by
  obtain ⟨hV, hf, hformula⟩ := tscc_ok_elim h
  rw [hformula (by omega) e, clamp_eq_max]
  refine max_le_max (le_refl 0) ?_
  have hg : (0 : ℚ) ≤
      (if f.any (fun i => npIndex E i == ((e : ℕ) : ℤ)) then 0
        else (B1.mulVec (fun r => evecs r ⟨1, by omega⟩) e) ^ 2) := by
    split
    · exact le_refl 0
    · exact sq_nonneg _
  nlinarith [mul_nonneg heta hg]

/-- Witness for C10: in the end-to-end example run, edge 0's output is at
least `max 0 (1 - 1/500)`. -/
theorem tscc_lower_bound_C10_witness :
    (0 : ℚ) ≤ 1/20 ∧ max 0 (cycleW 0 - 1/500) ≤ cycleResult 0 :=
  ⟨by norm_num, tscc_lower_bound_C10 (by norm_num) cycleRun 0⟩

/-- The full `E × E` array the broadcast model returns on the spec's
end-to-end example input (4-cycle, unit diagonal weights, edge 0 forbidden,
`eta = 1/20`, `gamma = 1/500`): the diagonal carries the per-edge update, but
every column `j ≠ 0` also has off-diagonal entries
`max 0 (eta * grad[j] - gamma) = 6/125 ≠ 0`. -/
def cycleMatResult : Mat 4 4 :=
  Matrix.of ![![499/500, 6/125, 6/125, 6/125],
              ![0, 131/125, 6/125, 6/125],
              ![0, 6/125, 131/125, 6/125],
              ![0, 6/125, 6/125, 131/125]]

/-- **C5.** The claim says a successful call returns a weight vector of
exactly length `E`, one scalar entry per edge, with the input's type shape.
The code does not: line 47 broadcasts the `(E, E)` diagonal weight matrix
against the length-`E` gradient, so at the spec's own end-to-end input the
returned object is the full `4 × 4` array `cycleMatResult`, whose
off-diagonal entry `(0, 1)` is `6/125 ≠ 0` even though the input's `(0, 1)`
entry is `0` — an `E × E` non-diagonal array, not a length-`E` weight
vector. -/
theorem tscc_shape_C5 :
    tscc_repair_step_mat (Matrix.diagonal cycleW) cycleB1 [0] (1/20) (1/500)
        cycleEvals cycleEvecs = Except.ok cycleMatResult
      ∧ cycleMatResult 0 1 = 6/125
      ∧ Matrix.diagonal cycleW 0 1 = 0 := by
  refine ⟨?_, by norm_num [cycleMatResult], by norm_num [Matrix.diagonal_apply, cycleW]⟩
  unfold tscc_repair_step_mat
  rw [dif_pos (by norm_num)]
  rw [if_pos (by decide)]
  refine congrArg Except.ok ?_
  ext i j
  fin_cases i <;> fin_cases j <;>
    norm_num [cycleW, cycleB1, cycleEvals, cycleEvecs, cycleMatResult, Matrix.mulVec,
      Matrix.dotProduct, Fin.sum_univ_four, npIndex, List.any, Matrix.diagonal_apply,
      Matrix.vecHead, Matrix.vecTail, Fin.ext_iff]

/-- Entrywise form of the weighted Hodge 1-Laplacian:
`L1[i,j] = Σ_e B1[e,i] * W[e] * B1[e,j]`. -/
theorem hodgeL1_apply {E V : ℕ} (W : Vec E) (B1 : Mat E V) (i j : Fin V) :
    hodgeL1 W B1 i j = ∑ e, B1 e i * W e * B1 e j := by
  unfold hodgeL1
  rw [Matrix.mul_apply]
  refine Finset.sum_congr rfl ?_
  intro e _
  rw [Matrix.mul_diagonal, Matrix.transpose_apply]

/-- The unit-weight 4-cycle Laplacian, computed entrywise. -/
theorem cycleL1_eq : hodgeL1 cycleW cycleB1 =
    Matrix.of ![![2, -1, 0, -1], ![-1, 2, -1, 0], ![0, -1, 2, -1], ![-1, 0, -1, 2]] := by
  ext i j
  rw [hodgeL1_apply]
  fin_cases i <;> fin_cases j <;>
    norm_num [cycleB1, cycleW, Fin.sum_univ_four, Matrix.vecHead, Matrix.vecTail]

/-- `cycleEvals`/`cycleEvecs` form a genuine eigendecomposition of the
4-cycle's weighted Laplacian, in the form `la.eigh` guarantees. -/
theorem cycleEigh : IsEigh (hodgeL1 cycleW cycleB1) cycleEvals cycleEvecs := by
  constructor
  · intro i j hij
    fin_cases i <;> fin_cases j <;>
      first
        | exact absurd hij (by decide)
        | norm_num [cycleEvals]
  · intro j
    rw [cycleL1_eq]
    funext r
    fin_cases j <;> fin_cases r <;>
      norm_num [cycleEvals, cycleEvecs, Matrix.mulVec, Matrix.dotProduct, Fin.sum_univ_four]
  · intro i j hij
    fin_cases i <;> fin_cases j <;>
      first
        | exact absurd rfl hij
        | norm_num [cycleEvecs, Fin.sum_univ_four]
  · intro j
    fin_cases j
    · exact ⟨0, by norm_num [cycleEvecs]⟩
    · exact ⟨0, by norm_num [cycleEvecs]⟩
    · exact ⟨1, by norm_num [cycleEvecs]⟩
    · exact ⟨0, by norm_num [cycleEvecs]⟩

/-- The pure gap-ascent run on the 4-cycle: `gamma = 0`, no forbidden edges,
`eta = 1/20`; every edge gains `eta` times the unit squared gradient. -/
theorem gapRun :
    tscc_repair_step cycleW cycleB1 [] (1/20) 0 cycleEvals cycleEvecs
      = Except.ok (fun _ => 21/20) := by
  unfold tscc_repair_step
  rw [dif_pos (by norm_num)]
  rw [if_pos (by decide)]
  refine congrArg Except.ok ?_
  funext e
  fin_cases e <;>
    norm_num [cycleW, cycleB1, cycleEvals, cycleEvecs, Matrix.mulVec,
      Matrix.dotProduct, Fin.sum_univ_four, npIndex, List.any]

/-- **C2.** When `gamma = 0` and `forbidden_edges` is empty, every output
entry of a valid call satisfies `W_new[e] = W[e] + eta * grad[e]`, where
`grad[e] = ((B1 v_gap)[e])^2` and `v_gap` is the eigenvector column paired
with the second-smallest eigenvalue (index 1, ascending) of the weighted
Laplacian `L1 = B1ᵗ diag(W) B1`. -/
theorem tscc_gradient_C2 {E V : ℕ} {W : Vec E} {B1 : Mat E V} {eta : ℚ}
    {evals : Fin V → ℚ} {evecs : Mat V V} {Wn : Vec E}
    (heigh : IsEigh (hodgeL1 W B1) evals evecs)
    (hW : ∀ e, 0 ≤ W e) (heta : 0 ≤ eta)
    (h : tscc_repair_step W B1 [] eta 0 evals evecs = Except.ok Wn)
    (h1 : 1 < V) (e : Fin E) :
    Wn e = W e + eta * (B1.mulVec (fun r => evecs r ⟨1, h1⟩) e) ^ 2 := by
  obtain ⟨hV, hf, hformula⟩ := tscc_ok_elim h
  rw [hformula h1 e]
  simp only [List.any_nil, Bool.false_eq_true, if_false, sub_zero]
  rw [if_neg (not_lt.mpr (add_nonneg (hW e) (mul_nonneg heta (sq_nonneg _))))]

/-- Witness for C2 on the 4-cycle with the verified eigendecomposition
`cycleEigh`: edge 2 of the gap-ascent run gains exactly
`eta * ((B1 v_gap)[2])^2`. -/
theorem tscc_gradient_C2_witness :
    ((fun _ => 21/20 : Vec 4) 2) = cycleW 2 +
      1/20 * (cycleB1.mulVec (fun r => cycleEvecs r ⟨1, by norm_num⟩) 2) ^ 2 :=
  tscc_gradient_C2 cycleEigh (fun _ => by norm_num [cycleW]) (by norm_num)
    gapRun (by norm_num) 2

/-- **C9.** When the Laplacian `L1 = B1ᵗ diag(W) B1` (a `V × V` matrix) has
fewer than 2 rows, and hence fewer than two eigenpairs, the call fails with
the insufficient-spectrum condition (the `IndexError` raised by `evals[1]`)
instead of returning a weight vector. -/
theorem tscc_insufficient_C9 {E V : ℕ} (W : Vec E) (B1 : Mat E V) (f : List ℤ)
    (eta gamma : ℚ) (evals : Fin V → ℚ) (evecs : Mat V V) (hV : V < 2) :
    tscc_repair_step W B1 f eta gamma evals evecs
      = Except.error StepError.insufficientEigenpairs := by
  unfold tscc_repair_step
  rw [dif_neg (by omega)]

/-- Single-edge, single-vertex weight data for the C9 witness. -/
def oneW : Vec 1 := fun _ => 1

/-- A 1 × 1 boundary operator (self-loop-like degenerate graph). -/
def oneB1 : Mat 1 1 := Matrix.of ![![1]]

/-- Witness for C9: on a `1 × 1` Laplacian the step fails with the
insufficient-spectrum error. -/
theorem tscc_insufficient_C9_witness :
    1 < 2 ∧
      tscc_repair_step oneW oneB1 [] (1/20) (1/500) ![0] (Matrix.of ![![1]])
        = Except.error StepError.insufficientEigenpairs :=
  ⟨by omega,
    tscc_insufficient_C9 oneW oneB1 [] (1/20) (1/500) ![0] (Matrix.of ![![1]]) (by omega)⟩

/-- Counterexample to **C4** as stated: `-1` is a negative index (`< 0`), so
the claim requires the call to fail with an IndexOutOfRange condition; instead
the call succeeds — numpy fancy indexing interprets `-1` as edge `E - 1`
(here edge 3, whose output entry is the masked `max 0 (1 - gamma) = 499/500`)
and returns a normal weight vector. -/
theorem tscc_negative_index_C4_counterexample :
    (-1 : ℤ) < 0 ∧
      tscc_repair_step cycleW cycleB1 [-1] (1/20) (1/500) cycleEvals cycleEvecs
        = Except.ok ![131/125, 131/125, 131/125, 499/500] := by
  refine ⟨by norm_num, ?_⟩
  unfold tscc_repair_step
  rw [dif_pos (by norm_num)]
  rw [if_pos (by decide)]
  refine congrArg Except.ok ?_
  funext e
  fin_cases e <;>
    norm_num [cycleW, cycleB1, cycleEvals, cycleEvecs, Matrix.mulVec,
      Matrix.dotProduct, Fin.sum_univ_four, npIndex, List.any]

/-- **C4 (amended).** A forbidden index outside numpy's valid range
`[-E, E)` — that is, `i ≥ E` or `i < -E` — makes the call fail with the
index-out-of-bounds condition (provided the spectrum check that precedes the
masking passes); indices in `[-E, -1]` are *not* rejected but silently
interpreted as `E + i`. -/
theorem tscc_index_error_C4 {E V : ℕ} (W : Vec E) (B1 : Mat E V) (f : List ℤ)
    (eta gamma : ℚ) (evals : Fin V → ℚ) (evecs : Mat V V) (hV : 2 ≤ V)
    (i : ℤ) (hi : i ∈ f) (hout : i < -(E : ℤ) ∨ (E : ℤ) ≤ i) :
    tscc_repair_step W B1 f eta gamma evals evecs
      = Except.error StepError.indexOutOfBounds := by
  have hbad : ¬ (f.all (validIndex E) = true) := by
    intro hall
    have hv := List.all_eq_true.mp hall i hi
    simp only [validIndex, Bool.and_eq_true, decide_eq_true_eq] at hv
    omega
  unfold tscc_repair_step
  rw [dif_pos hV]
  rw [if_neg hbad]

/-- Witness for the amended C4: forbidden index 5 on the 4-edge cycle fails
with the index-out-of-bounds error. -/
theorem tscc_index_error_C4_witness :
    ((5 : ℤ) ∈ [(5 : ℤ)]) ∧ ((4 : ℤ) ≤ 5) ∧
      tscc_repair_step cycleW cycleB1 [5] (1/20) (1/500) cycleEvals cycleEvecs
        = Except.error StepError.indexOutOfBounds :=
  ⟨by decide, by decide,
    tscc_index_error_C4 cycleW cycleB1 [5] (1/20) (1/500) cycleEvals cycleEvecs
      (by omega) 5 (by decide) (Or.inr (by decide))⟩

/-- Weight vector with a negative entry, for C8. -/
def negW : Vec 2 := ![-1, 3]

/-- The 2 × 2 identity as a boundary operator: `hodgeL1 negW negB1` is the
diagonal (indefinite, but still symmetric) matrix `diag(-1, 3)`. -/
def negB1 : Mat 2 2 := Matrix.of ![![1, 0], ![0, 1]]

/-- Counterexample to **C8** as stated: `negW` contains a negative entry, so
the claim requires the call to fail with an InvalidWeights condition; instead
no validation exists anywhere in the code and the call silently returns an
ordinary weight vector (`diag(-1, 3)` is still symmetric, so `eigh` yields
real eigenpairs — here `evals = (-1, 3)`, `evecs = I`). -/
theorem tscc_negative_weights_C8_counterexample :
    negW 0 < 0 ∧
      tscc_repair_step negW negB1 [] 1 0 ![-1, 3] (Matrix.of ![![1, 0], ![0, 1]])
        = Except.ok ![0, 4] := by
  refine ⟨by norm_num [negW], ?_⟩
  unfold tscc_repair_step
  rw [dif_pos (by norm_num)]
  rw [if_pos (by decide)]
  refine congrArg Except.ok ?_
  funext e
  fin_cases e <;>
    norm_num [negW, negB1, Matrix.mulVec, Matrix.dotProduct, Fin.sum_univ_two,
      npIndex, List.any]

/-- **C8 (amended).** Negative entries in `W` are not detected: the source
performs no validation of `W`, so whenever the structural checks pass (at
least two eigenpairs, forbidden indices in numpy range), a call whose `W`
contains a negative entry still completes and returns a weight vector. -/
theorem tscc_negative_weights_C8 {E V : ℕ} (W : Vec E) (B1 : Mat E V)
    (f : List ℤ) (eta gamma : ℚ) (evals : Fin V → ℚ) (evecs : Mat V V)
    (e0 : Fin E) (hneg : W e0 < 0)
    (hV : 2 ≤ V) (hf : f.all (validIndex E) = true) :
    (tscc_repair_step W B1 f eta gamma evals evecs).isOk = true := by
  unfold tscc_repair_step
  rw [dif_pos hV]
  rw [if_pos hf]
  rfl

/-- Witness for the amended C8: the concrete negative-weight call succeeds. -/
theorem tscc_negative_weights_C8_witness :
    negW 0 < 0 ∧
      (tscc_repair_step negW negB1 [] 1 0 ![-1, 3]
        (Matrix.of ![![1, 0], ![0, 1]])).isOk = true :=
  ⟨by norm_num [negW],
    tscc_negative_weights_C8 negW negB1 [] 1 0 ![-1, 3]
      (Matrix.of ![![1, 0], ![0, 1]]) 0 (by norm_num [negW]) (by omega) (by decide)⟩

section FrameModel

/-- A heap of weight-shaped rational arrays; a reference is a position in the
list. Only the 1-D arrays of the source (`W`, `grad_W`, `W_new`) live here —
they are the only targets of the function body's in-place assignments. -/
abbrev Heap (E : ℕ) := List (Vec E)

/-- Heap-level rendering of `tscc_repair_step`, making allocation and the two
in-place numpy assignments explicit: the caller's weight array lives at
`wRef`; `(B1 @ v_gap)**2` and `W + eta * grad_W - gamma` allocate fresh
cells; `grad_W[forbidden_edges] = 0` and `W_new[W_new < 0] = 0` write back to
the cell just read. Returns the final heap and the reference of the returned
array. -/
def tscc_repair_step_heap {E V : ℕ} (h0 : Heap E) (wRef : ℕ) (B1 : Mat E V)
    (forbidden_edges : List ℤ) (eta gamma : ℚ) (evals : Fin V → ℚ)
    (evecs : Mat V V) : Except StepError (Heap E × ℕ) :=
  let W : Vec E := h0.getD wRef (fun _ => 0)
  if hV : 2 ≤ V then
    let v_gap : Fin V → ℚ := fun r => evecs r ⟨1, by omega⟩
    let gradRef := h0.length
    let h1 := h0 ++ [fun e => (B1.mulVec v_gap e) ^ 2]
    if forbidden_edges.all (validIndex E) then
      let grad_W : Vec E := h1.getD gradRef (fun _ => 0)
      let h2 := h1.set gradRef (fun e =>
        if forbidden_edges.any (fun i => npIndex E i == ((e : ℕ) : ℤ)) then 0
        else grad_W e)
      let grad_W' : Vec E := h2.getD gradRef (fun _ => 0)
      let wnewRef := h2.length
      let h3 := h2 ++ [fun e => W e + eta * grad_W' e - gamma]
      let W_new : Vec E := h3.getD wnewRef (fun _ => 0)
      let h4 := h3.set wnewRef (fun e => if W_new e < 0 then 0 else W_new e)
      Except.ok (h4, wnewRef)
    else Except.error StepError.indexOutOfBounds
  else Except.error StepError.insufficientEigenpairs

/-- Writing to the cell just appended rewrites that cell. -/
theorem set_append_singleton {α : Type} (l : List α) (a b : α) :
    (l ++ [a]).set l.length b = l ++ [b] := by
  induction l with
  | nil => rfl
  | cons x xs ih => simpa [List.set] using ih

/-- Reading the cell just appended gives the appended value. -/
theorem getD_append_length {α : Type} (l : List α) (a d : α) :
    (l ++ [a]).getD l.length d = a := by
  rw [List.getD_eq_getElem?_getD, List.getElem?_concat_length]
  rfl

/-- Closed form of a successful heap-level run: the final heap is the initial
heap extended by the masked gradient cell and the clamped result cell, and
the returned reference is the fresh second cell. -/
theorem tscc_heap_run {E V : ℕ} (h0 : Heap E) (wRef : ℕ) (B1 : Mat E V)
    (f : List ℤ) (eta gamma : ℚ) (evals : Fin V → ℚ) (evecs : Mat V V)
    (hV : 2 ≤ V) (hf : f.all (validIndex E) = true) :
    tscc_repair_step_heap h0 wRef B1 f eta gamma evals evecs =
      Except.ok
        ((h0 ++ [fun e : Fin E => if f.any (fun i => npIndex E i == ((e : ℕ) : ℤ)) then 0
              else (B1.mulVec (fun r => evecs r ⟨1, by omega⟩) e) ^ 2]) ++
            [fun e : Fin E =>
              if h0.getD wRef (fun _ => 0) e + eta *
                    (if f.any (fun i => npIndex E i == ((e : ℕ) : ℤ)) then 0
                      else (B1.mulVec (fun r => evecs r ⟨1, by omega⟩) e) ^ 2) - gamma < 0
              then 0
              else h0.getD wRef (fun _ => 0) e + eta *
                    (if f.any (fun i => npIndex E i == ((e : ℕ) : ℤ)) then 0
                      else (B1.mulVec (fun r => evecs r ⟨1, by omega⟩) e) ^ 2) - gamma],
          (h0 ++ [fun e : Fin E => if f.any (fun i => npIndex E i == ((e : ℕ) : ℤ)) then 0
              else (B1.mulVec (fun r => evecs r ⟨1, by omega⟩) e) ^ 2]).length) := by
  simp only [tscc_repair_step_heap]
  rw [dif_pos hV]
  simp only [if_pos hf, getD_append_length, set_append_singleton]

end FrameModel

/-- **C7.** `tscc_repair_step` is pure from the caller's perspective: in the
heap-level model of a successful call, the caller's weight cell is unchanged
afterwards, the returned reference is a fresh cell distinct from the input
cell, and the value found there is exactly the functional model's output on
the input weights. (`B1` and `forbidden_edges` are passed by value in the
model and are never assignment targets in the source.) -/
theorem tscc_pure_C7 {E V : ℕ} {h0 : Heap E} {wRef : ℕ} {B1 : Mat E V}
    {f : List ℤ} {eta gamma : ℚ} {evals : Fin V → ℚ} {evecs : Mat V V}
    {h' : Heap E} {r : ℕ}
    (hw : wRef < h0.length)
    (h : tscc_repair_step_heap h0 wRef B1 f eta gamma evals evecs
      = Except.ok (h', r)) :
    h'[wRef]? = h0[wRef]? ∧ r ≠ wRef ∧
      tscc_repair_step (h0.getD wRef (fun _ => 0)) B1 f eta gamma evals evecs
        = Except.ok (h'.getD r (fun _ => 0)) := by
  by_cases hV : 2 ≤ V
  · by_cases hf : f.all (validIndex E) = true
    · rw [tscc_heap_run h0 wRef B1 f eta gamma evals evecs hV hf] at h
      simp only [Except.ok.injEq, Prod.mk.injEq] at h
      obtain ⟨hh, hr⟩ := h
      subst hh
      subst hr
      refine ⟨?_, ?_, ?_⟩
      · rw [List.getElem?_append_left (by simp [List.length_append]; omega),
          List.getElem?_append_left hw]
      · simp only [List.length_append, List.length_singleton]
        omega
      · rw [getD_append_length]
        simp only [tscc_repair_step]
        rw [dif_pos hV]
        rw [if_pos hf]
    · simp only [tscc_repair_step_heap] at h
      rw [dif_pos hV] at h
      simp only [if_neg hf] at h
      exact absurd h (by simp)
  · simp only [tscc_repair_step_heap] at h
    rw [dif_neg hV] at h
    exact absurd h (by simp)

/-- Two-edge weight data for the C7 witness. -/
def pairW : Vec 2 := ![2, 3]

/-- Identity boundary operator on two edges/vertices. -/
def pairB1 : Mat 2 2 := Matrix.of ![![1, 0], ![0, 1]]

/-- Identity eigenvector matrix: a valid `eigh` output for
`hodgeL1 pairW pairB1 = diag(2, 3)`. -/
def pairEvecs : Mat 2 2 := Matrix.of ![![1, 0], ![0, 1]]

/-- Final heap of the C7 example run: input cell untouched, gradient cell
`(0, 1)`, result cell `(1, 3)`. -/
def pairHeapOut : Heap 2 := [pairW, ![0, 1], ![1, 3]]

/-- The concrete heap-level run for the C7 witness. -/
theorem heapRunExample :
    tscc_repair_step_heap [pairW] 0 pairB1 [] 1 1 ![0, 2] pairEvecs
      = Except.ok (pairHeapOut, 2) := by
  rw [tscc_heap_run [pairW] 0 pairB1 [] 1 1 ![0, 2] pairEvecs (by omega) (by decide)]
  refine congrArg Except.ok ?_
  unfold pairHeapOut
  rw [Prod.mk.injEq]
  constructor
  · simp only [List.cons_append, List.nil_append]
    refine List.cons_eq_cons.mpr ⟨rfl, ?_⟩
    refine List.cons_eq_cons.mpr ⟨?_, ?_⟩
    · funext e
      fin_cases e <;>
        norm_num [pairB1, pairEvecs, Matrix.mulVec, Matrix.dotProduct,
          Fin.sum_univ_two, List.any]
    · refine List.cons_eq_cons.mpr ⟨?_, rfl⟩
      funext e
      fin_cases e <;>
        norm_num [pairW, pairB1, pairEvecs, Matrix.mulVec, Matrix.dotProduct,
          Fin.sum_univ_two, List.any, List.getD]
  · rfl

/-- Witness for C7: in the concrete two-edge run the caller's cell is intact,
the result lives in a fresh cell, and it matches the functional model. -/
theorem tscc_pure_C7_witness :
    pairHeapOut[0]? = [pairW][0]? ∧ 2 ≠ 0 ∧
      tscc_repair_step ([pairW].getD 0 (fun _ => 0)) pairB1 [] 1 1 ![0, 2] pairEvecs
        = Except.ok (pairHeapOut.getD 2 (fun _ => 0)) :=
  tscc_pure_C7 (by simp) heapRunExample
